import Mathlib

/-!
Verification development for the RSS feed-ingestion engine of the
`ai_news` repository (`src/crawlers/rss_crawler.py`, class `RSSNewsCrawler`).

The Python code is shallowly embedded: dictionaries become insertion-ordered
association lists, datetimes become microsecond counts (UTC) or explicit
calendar-field records, external effects (HTTP probes and fetches, the
system clock, the library date parsers, the `hashlib.md5` digest) become
explicit function parameters, and a Python exception escaping a function is
an `Except.error`.  Definitions first, theorems after.
-/

namespace RSS

/-! ## Strings: Python `str.lower` and the `in` substring test -/

/-- ASCII case folding, the effect of Python's `str.lower()` on the
characters that actually occur in the crawler's keyword lists and gate
(`A`–`Z` map down; Hangul and the other characters involved are uncased). -/
def pyLowerChar (c : Char) : Char :=
  if 'A' ≤ c ∧ c ≤ 'Z' then Char.ofNat (c.toNat + 32) else c

/-- Embeds `text.lower()` on the embedded strings. -/
def pyLower (s : String) : String := ⟨s.data.map pyLowerChar⟩

/-- Python's `needle in hay` contiguous-substring test, on character lists. -/
def substrB (needle : List Char) : List Char → Bool
  | [] => needle.isEmpty
  | c :: t => needle.isPrefixOf (c :: t) || substrB needle t

/-- Embeds `needle in hay` on strings. -/
def containsSub (hay needle : String) : Bool := substrB needle.data hay.data

/-- The specification-level substring relation: `needle` occurs contiguously
inside `hay`. -/
def IsSubstring (needle hay : String) : Prop := needle.data <:+: hay.data

/-- Python whitespace for `str.strip()` (the ASCII set; the relevant
comparisons only involve these). -/
def isPySpace (c : Char) : Bool :=
  c = ' ' || c = '\t' || c = '\n' || c = '\r' || c = Char.ofNat 11 || c = Char.ofNat 12

/-- Embeds `str.strip()`: drop leading and trailing whitespace. -/
def pyStrip (s : String) : String :=
  ⟨((s.data.dropWhile isPySpace).reverse.dropWhile isPySpace).reverse⟩

/-- Python's `s.startswith(pre)`. -/
def pyStartsWith (s pre : String) : Bool := pre.data.isPrefixOf s.data

/-! ## The literal keyword lists (`self.ai_keywords`, `self.exclude_keywords`) -/

/-- Embeds `self.ai_keywords` from `RSSNewsCrawler.__init__`, verbatim. -/
def ai_keywords : List String :=
  ["ai", "artificial intelligence", "machine learning", "deep learning",
   "neural network", "gpt", "llm", "large language model", "chatgpt",
   "generative ai", "computer vision", "nlp", "natural language processing",
   "transformer", "openai", "anthropic", "claude", "gemini", "mistral",
   "인공지능", "머신러닝", "딥러닝", "신경망", "생성형 AI"]

/-- Embeds `self.exclude_keywords` from `RSSNewsCrawler.__init__`, verbatim. -/
def exclude_keywords : List String :=
  ["air", "airpods", "macbook air",
   "carplay", "android auto", "car display", "entertainment system",
   "stock", "price", "market", "shares", "trading", "investor",
   "주가", "주식", "시장", "투자"]

/-- Embeds `_contains_ai_keywords`: lower the text, then test each keyword
(`any(keyword.lower() in text for keyword in self.ai_keywords)`). -/
def contains_ai_keywords (text : String) : Bool :=
  let t := pyLower text
  ai_keywords.any fun keyword => containsSub t (pyLower keyword)

/-- Embeds `_contains_exclude_keywords`, same shape over `exclude_keywords`. -/
def contains_exclude_keywords (text : String) : Bool :=
  let t := pyLower text
  exclude_keywords.any fun keyword => containsSub t (pyLower keyword)

/-- The keyword gate of `_process_entry` (lines 288–293): the entry survives
both early returns iff some AI keyword matches title or description and no
exclude keyword matches either. -/
def keywordGate (title description : String) : Bool :=
  (contains_ai_keywords title || contains_ai_keywords description) &&
    !(contains_exclude_keywords title || contains_exclude_keywords description)

/-- The specification's formulation of the gate, over the `IsSubstring`
relation on case-folded text. -/
def SpecGate (title description : String) : Prop :=
  (∃ k ∈ ai_keywords,
      IsSubstring (pyLower k) (pyLower title) ∨
      IsSubstring (pyLower k) (pyLower description)) ∧
  ¬ (∃ k ∈ exclude_keywords,
      IsSubstring (pyLower k) (pyLower title) ∨
      IsSubstring (pyLower k) (pyLower description))

/-! ## Datetimes

A `datetime` value is embedded as its microsecond count on the UTC time
line together with its awareness flag (`tzinfo is None` or not).  For a
naive value the count is the one obtained by reading its clock fields as
UTC, which is exactly what `pytz.utc.localize` makes official. -/

/-- One day in microseconds. -/
def microsPerDay : Int := 86400000000

/-- A Python `datetime`: microseconds since the epoch (clock fields read as
UTC when naive) and the awareness flag. -/
structure PyDT where
  micros : Int
  aware : Bool
deriving DecidableEq

/-- Embeds `pytz.utc.localize`: stamp a naive datetime as UTC, clock fields kept. -/
def localizeUTC (d : PyDT) : PyDT := ⟨d.micros, true⟩

/-- Embeds `_get_yesterday_range`: `now(utc) - timedelta(days=1)`, then
`replace(hour=0, minute=0, second=0, microsecond=0)` —
i.e. floor to the UTC day — for the start, and
`replace(hour=23, minute=59, second=59, microsecond=999999)` — the last
microsecond of that same day — for the end.  `Int.ediv` by the positive
constant `microsPerDay` is Python's floor division. -/
def get_yesterday_range (now : Int) : PyDT × PyDT :=
  let yesterday := now - microsPerDay
  let start := Int.ediv yesterday microsPerDay * microsPerDay
  (⟨start, true⟩, ⟨start + microsPerDay - 1, true⟩)

/-- Embeds `_is_within_date_range`: a naive date is localized to UTC, then
`start <= date <= end`, both bounds inclusive (comparison of aware UTC
datetimes is comparison of their instants). -/
def is_within_date_range (date lo hi : PyDT) : Bool :=
  let d := if date.aware then date else localizeUTC date
  decide (lo.micros ≤ d.micros) && decide (d.micros ≤ hi.micros)

/-! ## Calendar fields and `datetime.isoformat`

`_process_entry` stores `published_date.isoformat()` and `crawl_rss_feeds`
sorts on those strings.  Every `published_date` the crawler produces is a
UTC-aware `datetime`, so `isoformat()` renders
`YYYY-MM-DDTHH:MM:SS[.ffffff]+00:00`, the fractional part present exactly
when the microsecond field is nonzero (then zero-padded to six digits). -/

/-- The calendar fields of a UTC-aware datetime. -/
structure UTCTime where
  year : Nat
  month : Nat
  day : Nat
  hour : Nat
  minute : Nat
  second : Nat
  usec : Nat
deriving DecidableEq

/-- Gregorian leap year, as Python's `calendar`/`datetime` have it. -/
def isLeap (y : Nat) : Bool := y % 4 == 0 && (y % 100 != 0 || y % 400 == 0)

/-- Days in a month (month `1`–`12`). -/
def daysInMonth (leap : Bool) : Nat → Nat
  | 1 => 31 | 2 => if leap then 29 else 28 | 3 => 31 | 4 => 30
  | 5 => 31 | 6 => 30 | 7 => 31 | 8 => 31
  | 9 => 30 | 10 => 31 | 11 => 30 | 12 => 31
  | _ => 0

/-- Days of the year strictly before the first of the given month. -/
def daysBeforeMonth (leap : Bool) : Nat → Nat
  | 1 => 0 | 2 => 31 | 3 => if leap then 60 else 59
  | 4 => if leap then 91 else 90 | 5 => if leap then 121 else 120
  | 6 => if leap then 152 else 151 | 7 => if leap then 182 else 181
  | 8 => if leap then 213 else 212 | 9 => if leap then 244 else 243
  | 10 => if leap then 274 else 273 | 11 => if leap then 305 else 304
  | 12 => if leap then 335 else 334
  | _ => 0

/-- Days in a year. -/
def daysInYear (y : Nat) : Nat := if isLeap y then 366 else 365

/-- Days strictly before year `y` (counted from the fictitious year `0`;
only differences matter for ordering instants). -/
def daysBeforeYear : Nat → Nat
  | 0 => 0
  | y + 1 => daysBeforeYear y + daysInYear y

/-- A `datetime` whose fields a real UTC-aware Python `datetime` can carry
(`MINYEAR = 1`, `MAXYEAR = 9999`). -/
def ValidTime (t : UTCTime) : Prop :=
  1 ≤ t.year ∧ t.year ≤ 9999 ∧ 1 ≤ t.month ∧ t.month ≤ 12 ∧
  1 ≤ t.day ∧ t.day ≤ daysInMonth (isLeap t.year) t.month ∧
  t.hour ≤ 23 ∧ t.minute ≤ 59 ∧ t.second ≤ 59 ∧ t.usec ≤ 999999

/-- Field-lexicographic strict order on calendar records. -/
def TupleLt (t₁ t₂ : UTCTime) : Prop :=
  t₁.year < t₂.year ∨ (t₁.year = t₂.year ∧
    (t₁.month < t₂.month ∨ (t₁.month = t₂.month ∧
      (t₁.day < t₂.day ∨ (t₁.day = t₂.day ∧
        (t₁.hour < t₂.hour ∨ (t₁.hour = t₂.hour ∧
          (t₁.minute < t₂.minute ∨ (t₁.minute = t₂.minute ∧
            (t₁.second < t₂.second ∨ (t₁.second = t₂.second ∧
              t₁.usec < t₂.usec)))))))))))

/-- The instant of a UTC field record, in microseconds from year `0`. -/
def toMicros (t : UTCTime) : Nat :=
  ((daysBeforeYear t.year + daysBeforeMonth (isLeap t.year) t.month + (t.day - 1)) * 86400
      + t.hour * 3600 + t.minute * 60 + t.second) * 1000000
    + t.usec

/-- The decimal digit character. -/
def digitChar (d : Nat) : Char := Char.ofNat (48 + d)

/-- Zero-padded fixed-width decimal rendering, most significant digit
first. -/
def padNum : Nat → Nat → List Char
  | 0, _ => []
  | w + 1, n => padNum w (n / 10) ++ [digitChar (n % 10)]

/-- The `+00:00` offset rendering of `pytz.UTC`. -/
def offsetChars : List Char := ['+', '0', '0', ':', '0', '0']

/-- Embeds `datetime.isoformat()` of a UTC-aware value: the 19 fixed characters,
the optional `.ffffff` (present iff the microsecond field is nonzero), and
the `+00:00` offset. -/
def isoformat (t : UTCTime) : String :=
  ⟨padNum 4 t.year ++ '-' :: padNum 2 t.month ++ '-' :: padNum 2 t.day ++
   'T' :: padNum 2 t.hour ++ ':' :: padNum 2 t.minute ++ ':' :: padNum 2 t.second ++
   ((if t.usec = 0 then [] else '.' :: padNum 6 t.usec) ++ offsetChars)⟩

/-! ## Feed entries, `_process_entry`, metrics, `_crawl_single_feed` -/

/-- One raw feedparser entry as `_process_entry` reads it, each key accessed
through `entry.get(key, default)`. -/
structure RawEntry where
  published : Option String
  updated : Option String
  title : Option String
  description : Option String
  summary : Option String
  link : Option String

/-- The dictionary `_process_entry` builds for an accepted entry (before the
caller merges in the feed metadata). -/
structure ProcItem where
  title : String
  description : String
  link : String
  published : String
  source : String
deriving DecidableEq

/-- A news item after `_crawl_single_feed` adds `feed_language` and
`feed_category`. -/
structure NewsItem where
  title : String
  description : String
  link : String
  published : String
  source : String
  feed_language : String
  feed_category : String
deriving DecidableEq

/-- The ambient effects of the crawler, passed explicitly: the system clock
(UTC microseconds and its two `strftime` renderings), the library-backed
date parser `_parse_date` (every branch of that method returns a UTC-aware
datetime), and `datetime.isoformat` on such a value. -/
structure Env where
  now : Int
  today : String
  nowStr : String
  parse_date : String → PyDT
  iso : PyDT → String

/-- Embeds `_process_entry`.  A crucial detail of the source: the class never
assigns `self.logger`, so each `self.logger.warning(...)` raises
`AttributeError`; the `except` clause then runs `self.logger.error(...)`,
which raises again, and the exception escapes the method (`Except.error ()`).
The date-window and keyword rejections do not log and return `None`
(`Except.ok none`). -/
def process_entry (env : Env) (e : RawEntry) (feed_name : String) :
    Except Unit (Option ProcItem) :=
  let date_str := e.published.getD (e.updated.getD "")
  if date_str = "" then .error ()
  else
    let published_date := env.parse_date date_str
    let r := get_yesterday_range env.now
    if is_within_date_range published_date r.1 r.2 then
      let title := pyStrip (e.title.getD "")
      let description := pyStrip (e.description.getD (e.summary.getD ""))
      if title = "" || description = "" then .error ()
      else if !(contains_ai_keywords title || contains_ai_keywords description) then
        .ok none
      else if contains_exclude_keywords title || contains_exclude_keywords description then
        .ok none
      else
        let link := e.link.getD ""
        if link = "" then .error ()
        else .ok (some ⟨title, description, link, env.iso published_date, feed_name⟩)
    else .ok none

/-- One `FeedMetrics` record; response times are exact rationals standing
for the Python floats. -/
structure Metrics where
  total_requests : Nat
  successful_requests : Nat
  failed_requests : Nat
  total_response_time : ℚ
  avg_response_time : ℚ
  last_success : Option String
  last_failure : Option String
deriving DecidableEq

/-- The zero record installed for a feed seen for the first time. -/
def Metrics.init : Metrics := ⟨0, 0, 0, 0, 0, none, none⟩

/-- The in-memory `self.feed_metrics` dictionary. -/
abbrev MetricsMap := String → Option Metrics

/-- The record `_update_feed_metrics` writes for the updated feed: install
the zero record if the feed is new, bump `total_requests` and
`total_response_time`, recompute the running average, and stamp the success
or failure side. -/
def updatedRecord (m : MetricsMap) (feed_name : String) (success : Bool)
    (response_time : ℚ) (nowStr : String) : Metrics :=
  let base := (m feed_name).getD Metrics.init
  let withTotals : Metrics :=
    { base with
      total_requests := base.total_requests + 1
      total_response_time := base.total_response_time + response_time }
  let withAvg : Metrics :=
    { withTotals with
      avg_response_time :=
        withTotals.total_response_time / (withTotals.total_requests : ℚ) }
  if success then
    { withAvg with
      successful_requests := withAvg.successful_requests + 1
      last_success := some nowStr }
  else
    { withAvg with
      failed_requests := withAvg.failed_requests + 1
      last_failure := some nowStr }

/-- Embeds `_update_feed_metrics` as a map transformer: only the named feed's
record changes. -/
def update_feed_metrics (m : MetricsMap) (feed_name : String) (success : Bool)
    (response_time : ℚ) (nowStr : String) : MetricsMap :=
  fun n =>
    if n = feed_name then some (updatedRecord m feed_name success response_time nowStr)
    else m n

/-- A sequence of `_update_feed_metrics` calls, e.g. the ones issued across
several crawl cycles: `(feed name, success, response time, timestamp)`. -/
def apply_updates (m : MetricsMap) : List (String × Bool × ℚ × String) → MetricsMap
  | [] => m
  | (n, s, rt, ts) :: rest => apply_updates (update_feed_metrics m n s rt ts) rest

/-- Componentwise order on the accumulating counters of a metrics record. -/
def MetricsLe (a b : Metrics) : Prop :=
  a.total_requests ≤ b.total_requests ∧
  a.successful_requests ≤ b.successful_requests ∧
  a.failed_requests ≤ b.failed_requests ∧
  a.total_response_time ≤ b.total_response_time

/-- Feed definitions as stored in the registry: `{url, category, language,
update_frequency}`. -/
structure FeedInfo where
  url : String
  category : String
  language : String
  update_frequency : String
deriving DecidableEq

/-- The outcome of one `requests.get` + `feedparser.parse` attempt:
a timeout, another `RequestException`, an unexpected error (which the code
treats as structural and does not retry), or a parsed entry list. -/
inductive FetchOutcome where
  | timeout
  | netError
  | otherError
  | success (entries : List RawEntry)

/-- Embeds `self.max_retries` -/
def max_retries : Nat := 3
/-- Embeds `self.retry_delay` (seconds) -/
def retry_delay : Nat := 5
/-- Embeds `self.timeout` (seconds) -/
def request_timeout : Nat := 30
/-- Embeds `self.max_workers` -/
def max_workers : Nat := 10

/-- What one run of the retry loop of `_crawl_single_feed` produced: the
collected items, the `success` flag, how many fetch attempts were made and
how many `time.sleep(self.retry_delay)` calls ran. -/
structure SingleFeedResult where
  items : List NewsItem
  success : Bool
  attempts : Nat
  sleeps : Nat
deriving DecidableEq

/-- The inner `for entry in feed.entries` loop: items accepted so far are
kept; an exception escaping `_process_entry` aborts the loop (second
component `true`), discarding the rest. -/
def process_entries (env : Env) (feed_name lang cat : String) :
    List RawEntry → List NewsItem × Bool
  | [] => ([], false)
  | e :: rest =>
    match process_entry env e feed_name with
    | .error _ => ([], true)
    | .ok none => process_entries env feed_name lang cat rest
    | .ok (some it) =>
      let r := process_entries env feed_name lang cat rest
      (⟨it.title, it.description, it.link, it.published, it.source, lang, cat⟩ :: r.1,
        r.2)

/-- The retry loop of `_crawl_single_feed`, by remaining attempts.  The
`fetch` oracle gives the outcome of attempt `i`.  A nonempty parse breaks
with `success = True` (or breaks with `success = False` if an entry raised);
an empty parse logs and falls through to the sleep; timeouts and network
errors retry after `time.sleep`; any other error breaks at once.  The sleep
runs only when `attempt < max_retries - 1`, i.e. when further attempts
remain. -/
def crawl_loop (env : Env) (fetch : Nat → FetchOutcome) (feed_name lang cat : String) :
    Nat → Nat → SingleFeedResult
  | _, 0 => ⟨[], false, 0, 0⟩
  | i, r + 1 =>
    match fetch i with
    | .success entries =>
      if entries.isEmpty then
        let rest := crawl_loop env fetch feed_name lang cat (i + 1) r
        ⟨rest.items, rest.success, rest.attempts + 1,
          rest.sleeps + (if 0 < r then 1 else 0)⟩
      else
        let p := process_entries env feed_name lang cat entries
        if p.2 then ⟨p.1, false, 1, 0⟩ else ⟨p.1, true, 1, 0⟩
    | .timeout =>
      let rest := crawl_loop env fetch feed_name lang cat (i + 1) r
      ⟨rest.items, rest.success, rest.attempts + 1,
        rest.sleeps + (if 0 < r then 1 else 0)⟩
    | .netError =>
      let rest := crawl_loop env fetch feed_name lang cat (i + 1) r
      ⟨rest.items, rest.success, rest.attempts + 1,
        rest.sleeps + (if 0 < r then 1 else 0)⟩
    | .otherError => ⟨[], false, 1, 0⟩

/-- Embeds `_crawl_single_feed`: run the retry loop on the feed's URL, then update
this feed's metrics with the measured response time; returns the items and
the new metrics map. -/
def crawl_single_feed (env : Env) (fetch : String → Nat → FetchOutcome)
    (response_time : ℚ) (feed_name : String) (info : FeedInfo) (m : MetricsMap) :
    List NewsItem × MetricsMap :=
  let res := crawl_loop env (fetch info.url) feed_name info.language info.category
    0 max_retries
  (res.items, update_feed_metrics m feed_name res.success response_time env.nowStr)

/-! ## The feed registry (`self.rss_feeds`) -/

/-- One category bucket: feed name → definition, in insertion order. -/
abbrev Bucket := List (String × FeedInfo)

/-- The registry: category → bucket, in insertion order. -/
abbrev Registry := List (String × Bucket)

/-- Embeds `del d[key]` on an association list standing for a dict (keys unique). -/
def eraseKey {β : Type} : List (String × β) → String → List (String × β)
  | [], _ => []
  | (k, v) :: t, key => if k = key then t else (k, v) :: eraseKey t key

/-- Embeds `name in self.rss_feeds[category]` guarded by
`category in self.rss_feeds`. -/
def nameInCat (reg : Registry) (c name : String) : Bool :=
  match List.lookup c reg with
  | some b => (List.lookup name b).isSome
  | none => false

/-- Erase `name` from the bucket of category `cat` (first occurrence of the
category key, as in a dict). -/
def setBucketErase : Registry → String → String → Registry
  | [], _, _ => []
  | (c, b) :: t, cat, name =>
    if c = cat then (c, eraseKey b name) :: t
    else (c, b) :: setBucketErase t cat name

/-- The fall-through loop of `remove_feed`: scan the categories in order and
delete the first bucket entry whose key is `name`; flag whether a deletion
happened. -/
def removeFromAll : Registry → String → Registry × Bool
  | [], _ => ([], false)
  | (c, b) :: t, name =>
    if (List.lookup name b).isSome then ((c, eraseKey b name) :: t, true)
    else
      let r := removeFromAll t name
      ((c, b) :: r.1, r.2)

/-- Embeds `remove_feed(name, category)`.  The guard is the literal condition
`category and category in self.rss_feeds and name in self.rss_feeds[category]`
(`category` truthy means a non-empty string); when it fails — including when
a category WAS given but does not contain `name` — control falls through to
the search-all-categories loop. -/
def remove_feed (reg : Registry) (name : String) (category : Option String) :
    Registry :=
  match category with
  | some c =>
    if c ≠ "" ∧ nameInCat reg c name = true then setBucketErase reg c name
    else (removeFromAll reg name).1
  | none => (removeFromAll reg name).1

/-! ## The feed validator -/

/-- The outcome of the `requests.head(url, allow_redirects=True)` probe:
the final status and final URL, or one of the exception classes. -/
inductive ProbeResult where
  | timeout
  | netError
  | otherError
  | response (status : Nat) (finalUrl : String)
deriving DecidableEq

/-- Embeds `_validate_and_update_feed`: a URL without an `http(s)://` scheme is
invalid with no probe; a 200 whose final URL equals the stored one is valid;
a 200 whose final URL differs is valid with the new URL reported; any other
status or any exception is invalid. -/
def validate_and_update_feed (probe : String → ProbeResult) (info : FeedInfo) :
    Bool × Option String :=
  if !(pyStartsWith info.url "http://" || pyStartsWith info.url "https://") then
    (false, none)
  else
    match probe info.url with
    | .response status finalUrl =>
      if status = 200 then
        if finalUrl ≠ info.url then (true, some finalUrl) else (true, none)
      else (false, none)
    | _ => (false, none)

/-- The transient validation report: category → feed names, one list each
for valid, invalid and updated. -/
structure ValidationReport where
  valid : List (String × List String)
  invalid : List (String × List String)
  updated : List (String × List String)
deriving DecidableEq

/-- Validate one category bucket: the three report lists for the category
and the bucket with redirected URLs rewritten in place. -/
def validateBucket (probe : String → ProbeResult) :
    Bucket → List String × List String × List String × Bucket
  | [] => ([], [], [], [])
  | (name, info) :: rest =>
    let v := validate_and_update_feed probe info
    let r := validateBucket probe rest
    if v.1 then
      match v.2 with
      | some newUrl =>
        (name :: r.1, r.2.1, name :: r.2.2.1,
          (name, { info with url := newUrl }) :: r.2.2.2)
      | none => (name :: r.1, r.2.1, r.2.2.1, (name, info) :: r.2.2.2)
    else (r.1, name :: r.2.1, r.2.2.1, (name, info) :: r.2.2.2)

/-- Validate every category of the registry, building the report and the
in-place-updated registry. -/
def validate_feeds (probe : String → ProbeResult) :
    Registry → ValidationReport × Registry
  | [] => (⟨[], [], []⟩, [])
  | (c, b) :: rest =>
    let q := validateBucket probe b
    let r := validate_feeds probe rest
    (⟨(c, q.1) :: r.1.valid, (c, q.2.1) :: r.1.invalid, (c, q.2.2.1) :: r.1.updated⟩,
      (c, q.2.2.2) :: r.2)

/-- Embeds `any(len(updated) > 0 for updated in validation_report['updated'].values())`. -/
def anyUpdated (rep : ValidationReport) : Bool :=
  rep.updated.any fun p => !p.2.isEmpty

/-- Embeds `validate_and_update_feeds`: run the validation, then save the registry
once iff some feed was updated.  The third component counts the
`_save_feeds()` calls. -/
def validate_and_update_feeds (probe : String → ProbeResult) (reg : Registry) :
    ValidationReport × Registry × Nat :=
  let r := validate_feeds probe reg
  (r.1, r.2, if anyUpdated r.1 then 1 else 0)

/-- The URL self-heal `validate_and_update_feeds` applies to one feed
definition. -/
def applyFix (probe : String → ProbeResult) (info : FeedInfo) : FeedInfo :=
  match validate_and_update_feed probe info with
  | (true, some u) => { info with url := u }
  | _ => info

/-! ## The dedup store (`self.news_hashes`, `_generate_news_hash`, `_is_duplicate`) -/

/-- One stored dedup record: `{date, title}` under the fingerprint key. -/
structure HashRec where
  date : String
  title : String
deriving DecidableEq

/-- The fingerprint store: md5 hex digest → record, in insertion order. -/
abbrev HashStore := List (String × HashRec)

/-- Embeds `_generate_news_hash`: the digest of the concatenated
`title`, `link`, `published` fields; `md5` is the external digest function,
passed in (only its determinism matters here). -/
def generate_news_hash (md5 : String → String) (it : NewsItem) : String :=
  md5 (it.title ++ it.link ++ it.published)

/-- Embeds `_is_duplicate`: fingerprint membership check; a miss records
`{date: today, title}` under the fingerprint and reports `False`; a hit
reports `True` and leaves the store untouched. -/
def is_duplicate (md5 : String → String) (today : String) (store : HashStore)
    (it : NewsItem) : Bool × HashStore :=
  let h := generate_news_hash md5 it
  if (List.lookup h store).isSome then (true, store)
  else (false, store ++ [(h, ⟨today, it.title⟩)])

/-! ## `crawl_rss_feeds` -/

/-- Character comparison by code point, as Python compares strings. -/
def cmpChar (a b : Char) : Ordering := compare a.toNat b.toNat

/-- Lexicographic comparison of character lists: Python's string order. -/
def cmpL : List Char → List Char → Ordering
  | [], [] => .eq
  | [], _ :: _ => .lt
  | _ :: _, [] => .gt
  | a :: as, b :: bs => (cmpChar a b).then (cmpL as bs)

/-- Embeds `a['published'] >= b['published']` in Python string order. -/
def pubGeB (a b : NewsItem) : Bool :=
  !(cmpL a.published.data b.published.data == .lt)

/-- Insert into a descending-by-`published` list. -/
def insertDesc (x : NewsItem) : List NewsItem → List NewsItem
  | [] => [x]
  | y :: t => if pubGeB x y then x :: y :: t else y :: insertDesc x t

/-- Embeds `all_entries.sort(key=lambda x: x['published'], reverse=True)`: the
merged collection ordered by the `published` strings, newest first. -/
def sortByPublishedDesc : List NewsItem → List NewsItem
  | [] => []
  | x :: t => insertDesc x (sortByPublishedDesc t)

/-- Chronological newest-first at the level of instants: whenever the two
`published` strings are `isoformat` renderings of valid UTC datetimes, the
first instant is at least the second. -/
def PublishedChronoGe (a b : NewsItem) : Prop :=
  ∀ ta tb : UTCTime, ValidTime ta → ValidTime tb →
    a.published = isoformat ta → b.published = isoformat tb →
    toMicros tb ≤ toMicros ta

/-- Embeds `entries[:max_items_per_feed]` under
`if max_items_per_feed and len(entries) > max_items_per_feed:`
(a `None` or `0` cap truncates nothing). -/
def truncateItems (mx : Option Nat) (l : List NewsItem) : List NewsItem :=
  match mx with
  | none => l
  | some m => if m ≠ 0 ∧ m < l.length then l.take m else l

/-- Embeds `name in validation_report['valid'][category]`. -/
def nameValid (rep : ValidationReport) (c name : String) : Bool :=
  match List.lookup c rep.valid with
  | some l => l.contains name
  | none => false

/-- The fixed category order of the `feed_type == 'all'` branch. -/
def allCategories : List String := ["general", "specialized", "korean"]

/-- The feed-selection step of `crawl_rss_feeds`: only feeds the validation
reported valid are crawled; unknown feed types fall back to `'general'`. -/
def feeds_to_crawl (reg : Registry) (rep : ValidationReport) (feed_type : String) :
    List (String × FeedInfo) :=
  if feed_type = "all" then
    (allCategories.map fun c =>
      match List.lookup c reg with
      | some b => b.filter fun p => nameValid rep c p.1
      | none => []).flatten
  else
    match List.lookup feed_type reg with
    | some b => b.filter fun p => nameValid rep feed_type p.1
    | none =>
      match List.lookup "general" reg with
      | some b => b.filter fun p => nameValid rep "general" p.1
      | none => []

/-- Embeds `crawl_rss_feeds`: validate (urls self-healed in place), select the
valid feeds, crawl each (the thread-pool fan-out is sequentialized; the
final sort makes the merged result independent of completion order up to
ties), truncate per feed, merge, sort newest-first, and return.  The
metrics map accumulates per feed; the in-memory dedup store is returned
untouched — `crawl_rss_feeds` never calls `_is_duplicate`, and
`_save_hashes` only writes a purged copy to disk. -/
def crawl_rss_feeds (env : Env) (probe : String → ProbeResult)
    (fetch : String → Nat → FetchOutcome) (rts : String → ℚ) (reg : Registry)
    (feed_type : String) (max_items : Option Nat) (metrics : MetricsMap)
    (hashes : HashStore) :
    List NewsItem × MetricsMap × HashStore × Registry :=
  let v := validate_and_update_feeds probe reg
  let feeds := feeds_to_crawl v.2.1 v.1 feed_type
  let step := fun (acc : List NewsItem × MetricsMap) (nf : String × FeedInfo) =>
    let r := crawl_single_feed env fetch (rts nf.1) nf.1 nf.2 acc.2
    (acc.1 ++ truncateItems max_items r.1, r.2)
  let folded := feeds.foldl step ([], metrics)
  (sortByPublishedDesc folded.1, folded.2, hashes, v.2.1)

/-! ## Concrete inputs used to exercise the definitions

`demoEnv` fixes the clock at `now = 1970-01-02T00:00:00Z` (one day of
microseconds), so yesterday's window is `[0, microsPerDay)`; its date
parser maps every string to the in-window instant `5 µs`, standing for a
feed whose entries are dated inside yesterday. -/

/-- A concrete environment for witnesses and counterexamples. -/
def demoEnv : Env where
  now := microsPerDay
  today := "1970-01-02"
  nowStr := "1970-01-02 00:00:00"
  parse_date := fun _ => ⟨5, true⟩
  iso := fun _ => "1970-01-01T00:00:00+00:00"

/-- A concrete feed definition. -/
def demoInfo : FeedInfo := ⟨"http://example.com/feed", "tech", "en", "daily"⟩

/-- A raw entry carrying neither `published` nor `updated`. -/
def entryNoDate : RawEntry :=
  ⟨none, none, some "AI breakthrough", some "New AI model shipped", none,
    some "http://example.com/a"⟩

/-- A raw entry that passes every filter of `_process_entry`. -/
def entryGood : RawEntry :=
  ⟨some "Mon, 01 Jan 1970 00:00:00 +0000", none, some "AI breakthrough",
    some "New AI model shipped", none, some "http://example.com/a"⟩

/-- The news item `entryGood` becomes under `demoEnv` in feed `"feed"`. -/
def demoItem : NewsItem :=
  ⟨"AI breakthrough", "New AI model shipped", "http://example.com/a",
    "1970-01-01T00:00:00+00:00", "feed", "en", "tech"⟩

/-- A one-category, one-feed registry whose single feed answers with the
same entry twice. -/
def demoReg : Registry := [("general", [("feed", demoInfo)])]

/-- A registry whose category `"a"` does not hold `"feed"` but whose
category `"b"` does. -/
def regTwoCats : Registry := [("a", []), ("b", [("feed", demoInfo)])]

/-! # Theorems -/

/-! ## Substrings and the keyword gate -/

theorem substrB_iff_infix (needle hay : List Char) :
    substrB needle hay = true ↔ needle <:+: hay := by
  induction hay with
  | nil =>
    simp [substrB, List.isEmpty_iff]
  | cons c t ih =>
    simp only [substrB, Bool.or_eq_true, List.isPrefixOf_iff_prefix, ih,
      List.infix_cons_iff]

theorem containsSub_iff (hay needle : String) :
    containsSub hay needle = true ↔ IsSubstring needle hay :=
  substrB_iff_infix needle.data hay.data

theorem contains_ai_keywords_iff (text : String) :
    contains_ai_keywords text = true ↔
      ∃ k ∈ ai_keywords, IsSubstring (pyLower k) (pyLower text) := by
  simp [contains_ai_keywords, List.any_eq_true, containsSub_iff]

theorem contains_exclude_keywords_iff (text : String) :
    contains_exclude_keywords text = true ↔
      ∃ k ∈ exclude_keywords, IsSubstring (pyLower k) (pyLower text) := by
  simp [contains_exclude_keywords, List.any_eq_true, containsSub_iff]

theorem keywordGate_iff (title description : String) :
    keywordGate title description = true ↔ SpecGate title description := by
  unfold keywordGate SpecGate
  rw [Bool.and_eq_true, Bool.or_eq_true, Bool.not_eq_true', Bool.or_eq_false_iff,
    contains_ai_keywords_iff title, contains_ai_keywords_iff description,
    ← Bool.not_eq_true (contains_exclude_keywords title),
    ← Bool.not_eq_true (contains_exclude_keywords description),
    contains_exclude_keywords_iff title, contains_exclude_keywords_iff description]
  aesop

/-- C10: the keyword gate of `_process_entry` accepts iff some include
keyword (case-folded) occurs in the case-folded title or description and no
exclude keyword does; concretely, "New GPT model released" passes the topic
match (via the substring "gpt") and "AirPods Pro review" is rejected by the
exclusion check (via the substring "air"), whatever its description. -/
theorem c10_keyword_gate :
    (∀ title description,
        keywordGate title description = true ↔ SpecGate title description) ∧
    contains_ai_keywords "New GPT model released" = true ∧
    "gpt" ∈ ai_keywords ∧
    IsSubstring (pyLower "gpt") (pyLower "New GPT model released") ∧
    contains_exclude_keywords "AirPods Pro review" = true ∧
    "air" ∈ exclude_keywords ∧
    IsSubstring (pyLower "air") (pyLower "AirPods Pro review") ∧
    (∀ description, keywordGate "AirPods Pro review" description = false) :=
  ⟨keywordGate_iff,
   by decide,
   by decide,
   (containsSub_iff _ _).1 (by decide),
   by decide,
   by decide,
   (containsSub_iff _ _).1 (by decide),
   fun description => by
     simp [keywordGate, show contains_exclude_keywords "AirPods Pro review" = true
       from by decide]⟩

/-! ## The yesterday window -/

theorem ediv_sub_day (now : Int) :
    (now - microsPerDay).ediv microsPerDay = now.ediv microsPerDay - 1 := by
  have h1 : (now + (-1) * microsPerDay).ediv microsPerDay
      = now.ediv microsPerDay + (-1) :=
    Int.add_mul_ediv_right now (-1) (by norm_num [microsPerDay])
  have h2 : now - microsPerDay = now + (-1) * microsPerDay := by ring
  rw [h2, h1]; ring

theorem within_utc_utc (x lo hi : Int) :
    is_within_date_range ⟨x, true⟩ ⟨lo, true⟩ ⟨hi, true⟩ =
      (decide (lo ≤ x) && decide (x ≤ hi)) := rfl

/-- C9: `_get_yesterday_range` returns the UTC day before `now`'s UTC day —
start at 00:00:00.000000 (the midnight instant `(day(now) - 1) * day`),
end at 23:59:59.999999 (the day's last microsecond) — and
`_is_within_date_range` is inclusive at both bounds, excludes today's
midnight, and coerces a naive timestamp to UTC before comparing. -/
theorem c9_yesterday_window (now : Int) :
    (get_yesterday_range now).1.micros
        = (Int.ediv now microsPerDay - 1) * microsPerDay ∧
    (get_yesterday_range now).1.aware = true ∧
    (get_yesterday_range now).2.micros
        = (get_yesterday_range now).1.micros + microsPerDay - 1 ∧
    (get_yesterday_range now).2.aware = true ∧
    is_within_date_range ⟨(get_yesterday_range now).1.micros, true⟩
        (get_yesterday_range now).1 (get_yesterday_range now).2 = true ∧
    is_within_date_range ⟨(get_yesterday_range now).2.micros, true⟩
        (get_yesterday_range now).1 (get_yesterday_range now).2 = true ∧
    is_within_date_range ⟨(get_yesterday_range now).1.micros + microsPerDay, true⟩
        (get_yesterday_range now).1 (get_yesterday_range now).2 = false ∧
    (∀ m : Int,
        is_within_date_range ⟨m, false⟩
            (get_yesterday_range now).1 (get_yesterday_range now).2 =
          is_within_date_range ⟨m, true⟩
            (get_yesterday_range now).1 (get_yesterday_range now).2) := by
  refine ⟨?_, rfl, rfl, rfl, ?_, ?_, ?_, fun m => rfl⟩
  · show (now - microsPerDay).ediv microsPerDay * microsPerDay
        = (now.ediv microsPerDay - 1) * microsPerDay
    rw [ediv_sub_day]
  · rw [show (get_yesterday_range now).1 = ⟨(get_yesterday_range now).1.micros, true⟩
        from rfl,
      show (get_yesterday_range now).2 = ⟨(get_yesterday_range now).2.micros, true⟩
        from rfl, within_utc_utc]
    simp only [Bool.and_eq_true, decide_eq_true_eq, get_yesterday_range, microsPerDay]
    omega
  · rw [show (get_yesterday_range now).1 = ⟨(get_yesterday_range now).1.micros, true⟩
        from rfl,
      show (get_yesterday_range now).2 = ⟨(get_yesterday_range now).2.micros, true⟩
        from rfl, within_utc_utc]
    simp only [Bool.and_eq_true, decide_eq_true_eq, get_yesterday_range, microsPerDay]
    omega
  · rw [show (get_yesterday_range now).1 = ⟨(get_yesterday_range now).1.micros, true⟩
        from rfl,
      show (get_yesterday_range now).2 = ⟨(get_yesterday_range now).2.micros, true⟩
        from rfl, within_utc_utc]
    simp only [Bool.and_eq_false_iff, decide_eq_false_iff_not, get_yesterday_range,
      microsPerDay]
    omega

/-- Exercises C9 with the clock at `1970-01-02T00:00:00Z`. -/
theorem c9_yesterday_window_witness :
    (get_yesterday_range microsPerDay).1.micros
        = (Int.ediv microsPerDay microsPerDay - 1) * microsPerDay ∧
    is_within_date_range ⟨(get_yesterday_range microsPerDay).1.micros, true⟩
        (get_yesterday_range microsPerDay).1 (get_yesterday_range microsPerDay).2
      = true ∧
    is_within_date_range
        ⟨(get_yesterday_range microsPerDay).1.micros + microsPerDay, true⟩
        (get_yesterday_range microsPerDay).1 (get_yesterday_range microsPerDay).2
      = false :=
  ⟨(c9_yesterday_window microsPerDay).1,
    (c9_yesterday_window microsPerDay).2.2.2.2.1,
    (c9_yesterday_window microsPerDay).2.2.2.2.2.2.1⟩

/-! ## Retry exhaustion (`_crawl_single_feed`) -/

/-- C3: a feed whose fetch times out on every attempt is fetched exactly
`max_retries` (3) times, sleeps `retry_delay` (5 s) between consecutive
attempts and not after the last (2 sleeps), contributes no entries, ends
with `success = False`, and the one metrics update recording the exhausted
episode bumps `failed_requests` and `total_requests` by one with
`successful_requests` unchanged; other feeds' metrics are untouched. -/
theorem c3_retry_exhaustion (env : Env) (fetch : String → Nat → FetchOutcome)
    (response_time : ℚ) (feed_name : String) (info : FeedInfo) (m : MetricsMap)
    (hto : ∀ i, fetch info.url i = FetchOutcome.timeout) :
    max_retries = 3 ∧ retry_delay = 5 ∧
    crawl_loop env (fetch info.url) feed_name info.language info.category 0 max_retries
      = ⟨[], false, max_retries, max_retries - 1⟩ ∧
    (crawl_single_feed env fetch response_time feed_name info m).1 = [] ∧
    ((crawl_single_feed env fetch response_time feed_name info m).2 feed_name).map
        Metrics.failed_requests
      = some (((m feed_name).getD Metrics.init).failed_requests + 1) ∧
    ((crawl_single_feed env fetch response_time feed_name info m).2 feed_name).map
        Metrics.successful_requests
      = some ((m feed_name).getD Metrics.init).successful_requests ∧
    ((crawl_single_feed env fetch response_time feed_name info m).2 feed_name).map
        Metrics.total_requests
      = some (((m feed_name).getD Metrics.init).total_requests + 1) ∧
    (∀ n, n ≠ feed_name →
      (crawl_single_feed env fetch response_time feed_name info m).2 n = m n) := by
  have hloop : crawl_loop env (fetch info.url) feed_name info.language info.category
      0 max_retries = ⟨[], false, 3, 2⟩ := by
    simp [crawl_loop, max_retries, hto 0, hto 1, hto 2]
  refine ⟨rfl, rfl, hloop, ?_, ?_, ?_, ?_, ?_⟩
  · simp [crawl_single_feed, hloop]
  · simp [crawl_single_feed, hloop, update_feed_metrics, updatedRecord]
  · simp [crawl_single_feed, hloop, update_feed_metrics, updatedRecord]
  · simp [crawl_single_feed, hloop, update_feed_metrics, updatedRecord]
  · intro n hn
    simp [crawl_single_feed, hloop, update_feed_metrics, hn]

/-- Exercises C3 at `demoEnv`, a timeout-only fetch oracle and an empty
metrics map. -/
theorem c3_retry_exhaustion_witness :
    (∀ i, (fun (_ : String) (_ : Nat) => FetchOutcome.timeout) demoInfo.url i
        = FetchOutcome.timeout) ∧
    crawl_loop demoEnv
        ((fun (_ : String) (_ : Nat) => FetchOutcome.timeout) demoInfo.url)
        "feed" demoInfo.language demoInfo.category 0 max_retries
      = ⟨[], false, max_retries, max_retries - 1⟩ :=
  ⟨fun _ => rfl,
    (c3_retry_exhaustion demoEnv (fun _ _ => FetchOutcome.timeout) 1 "feed"
      demoInfo (fun _ => none) (fun _ => rfl)).2.2.1⟩

/-! ## The metrics invariant (`_update_feed_metrics`) -/

theorem metricsLe_refl (a : Metrics) : MetricsLe a a :=
  ⟨le_rfl, le_rfl, le_rfl, le_rfl⟩

theorem metricsLe_trans {a b c : Metrics} (h₁ : MetricsLe a b) (h₂ : MetricsLe b c) :
    MetricsLe a c :=
  ⟨h₁.1.trans h₂.1, h₁.2.1.trans h₂.2.1, h₁.2.2.1.trans h₂.2.2.1,
    h₁.2.2.2.trans h₂.2.2.2⟩

theorem update_feed_metrics_mono (m : MetricsMap) (name : String) (success : Bool)
    (rt : ℚ) (ns : String) (hrt : 0 ≤ rt) (n : String) (rec : Metrics)
    (h : m n = some rec) :
    ∃ rec', update_feed_metrics m name success rt ns n = some rec' ∧
      MetricsLe rec rec' := by
  by_cases hn : n = name
  · subst hn
    refine ⟨updatedRecord m n success rt ns, by simp [update_feed_metrics], ?_⟩
    unfold updatedRecord MetricsLe
    simp only [h, Option.getD_some]
    cases success
    · exact ⟨Nat.le_succ _, le_rfl, Nat.le_succ _, le_add_of_nonneg_right hrt⟩
    · exact ⟨Nat.le_succ _, Nat.le_succ _, le_rfl, le_add_of_nonneg_right hrt⟩
  · exact ⟨rec, by simp [update_feed_metrics, hn, h], metricsLe_refl rec⟩

theorem apply_updates_mono (updates : List (String × Bool × ℚ × String)) :
    ∀ m : MetricsMap, (∀ u ∈ updates, 0 ≤ u.2.2.1) →
      ∀ (n : String) (rec : Metrics), m n = some rec →
        ∃ rec', apply_updates m updates n = some rec' ∧ MetricsLe rec rec' := by
  induction updates with
  | nil =>
    intro m _ n rec hm
    exact ⟨rec, hm, metricsLe_refl rec⟩
  | cons u rest ih =>
    intro m h n rec hm
    obtain ⟨n₁, s₁, rt₁, ts₁⟩ := u
    have h₁ : (0 : ℚ) ≤ rt₁ := h _ (List.mem_cons_self _ _)
    obtain ⟨rec₁, hrec₁, hle₁⟩ :=
      update_feed_metrics_mono m n₁ s₁ rt₁ ts₁ h₁ n rec hm
    obtain ⟨rec₂, hrec₂, hle₂⟩ :=
      ih (update_feed_metrics m n₁ s₁ rt₁ ts₁)
        (fun u hu => h u (List.mem_cons_of_mem _ hu)) n rec₁ hrec₁
    exact ⟨rec₂, hrec₂, metricsLe_trans hle₁ hle₂⟩

/-- C7: right after any `_update_feed_metrics` call, the updated feed's
record has `avg_response_time = total_response_time / total_requests`
exactly and (granted it held before, as it does from the zero record)
`total_requests = successful_requests + failed_requests`; and across any
sequence of calls with nonnegative response times — crawl cycles over a map
loaded at startup included — none of the four accumulating counters ever
decreases. -/
theorem c7_metrics_invariant :
    (∀ (m : MetricsMap) (name : String) (success : Bool) (rt : ℚ) (ns : String),
      ∃ rec', update_feed_metrics m name success rt ns name = some rec' ∧
        rec'.avg_response_time
          = rec'.total_response_time / (rec'.total_requests : ℚ) ∧
        rec'.total_requests = ((m name).getD Metrics.init).total_requests + 1 ∧
        (((m name).getD Metrics.init).total_requests
            = ((m name).getD Metrics.init).successful_requests
              + ((m name).getD Metrics.init).failed_requests →
          rec'.total_requests = rec'.successful_requests + rec'.failed_requests)) ∧
    (∀ (m : MetricsMap) (updates : List (String × Bool × ℚ × String)),
      (∀ u ∈ updates, 0 ≤ u.2.2.1) →
      ∀ (n : String) (rec : Metrics), m n = some rec →
        ∃ rec', apply_updates m updates n = some rec' ∧ MetricsLe rec rec') := by
  constructor
  · intro m name success rt ns
    refine ⟨updatedRecord m name success rt ns, by simp [update_feed_metrics],
      ?_, ?_, ?_⟩
    · cases success <;> rfl
    · cases success <;> rfl
    · intro hpre
      cases success <;> simp [updatedRecord] <;> omega
  · intro m updates h n rec hm
    exact apply_updates_mono updates m h n rec hm

/-- Exercises C7: one successful update over the empty map, and a
two-update sequence, at concrete inputs. -/
theorem c7_metrics_invariant_witness :
    (∃ rec', update_feed_metrics (fun _ => none) "feed" true 2 "ts" "feed"
        = some rec' ∧
      rec'.avg_response_time
        = rec'.total_response_time / (rec'.total_requests : ℚ) ∧
      rec'.total_requests
        = (((fun _ => none : MetricsMap) "feed").getD Metrics.init).total_requests
            + 1 ∧
      ((((fun _ => none : MetricsMap) "feed").getD Metrics.init).total_requests
          = (((fun _ => none : MetricsMap) "feed").getD
              Metrics.init).successful_requests
            + (((fun _ => none : MetricsMap) "feed").getD
                Metrics.init).failed_requests →
        rec'.total_requests = rec'.successful_requests + rec'.failed_requests)) ∧
    (∃ rec', apply_updates (fun _ => some Metrics.init)
          [("feed", true, 2, "ts"), ("feed", false, 1, "ts")] "feed"
        = some rec' ∧ MetricsLe Metrics.init rec') :=
  ⟨c7_metrics_invariant.1 (fun _ => none) "feed" true 2 "ts",
    c7_metrics_invariant.2 (fun _ => some Metrics.init)
      [("feed", true, 2, "ts"), ("feed", false, 1, "ts")]
      (by intro u hu; fin_cases hu <;> norm_num) "feed" Metrics.init rfl⟩

/-! ## The dedup store -/

theorem lookup_append_self (h : String) (store : HashStore) (rec : HashRec)
    (habs : List.lookup h store = none) :
    List.lookup h (store ++ [(h, rec)]) = some rec := by
  induction store with
  | nil => simp [List.lookup]
  | cons p t ih =>
    obtain ⟨k, v⟩ := p
    by_cases he : h = k
    · subst he
      simp [List.lookup] at habs
    · have hb : (h == k) = false := by simpa using he
      simp only [List.cons_append, List.lookup, hb] at habs ⊢
      exact ih habs

/-- C8: starting from a store without the entry's fingerprint, the first
`_is_duplicate` call answers `False` and appends `{fingerprint: {date:
today, title}}`; the second call answers `True` and leaves the store
untouched; a third call still answers `True` with the store still
untouched. -/
theorem c8_idempotent_dedup (md5 : String → String) (today : String)
    (store : HashStore) (it : NewsItem)
    (habs : List.lookup (generate_news_hash md5 it) store = none) :
    (is_duplicate md5 today store it).1 = false ∧
    (is_duplicate md5 today store it).2
      = store ++ [(generate_news_hash md5 it, ⟨today, it.title⟩)] ∧
    List.lookup (generate_news_hash md5 it) (is_duplicate md5 today store it).2
      = some ⟨today, it.title⟩ ∧
    is_duplicate md5 today (is_duplicate md5 today store it).2 it
      = (true, (is_duplicate md5 today store it).2) ∧
    is_duplicate md5 today
        (is_duplicate md5 today (is_duplicate md5 today store it).2 it).2 it
      = (true, (is_duplicate md5 today store it).2) := by
  have h1 : (is_duplicate md5 today store it)
      = (false, store ++ [(generate_news_hash md5 it, ⟨today, it.title⟩)]) := by
    simp [is_duplicate, habs]
  have h2 : List.lookup (generate_news_hash md5 it)
      (store ++ [(generate_news_hash md5 it, ⟨today, it.title⟩)])
      = some ⟨today, it.title⟩ :=
    lookup_append_self _ store _ habs
  have h3 : is_duplicate md5 today
      (store ++ [(generate_news_hash md5 it, ⟨today, it.title⟩)]) it
      = (true, store ++ [(generate_news_hash md5 it, ⟨today, it.title⟩)]) := by
    simp [is_duplicate, h2]
  refine ⟨by rw [h1], by rw [h1], by rw [h1]; exact h2, ?_, ?_⟩
  · rw [h1]
    exact h3
  · rw [h1]
    simp only [h3]

/-- Exercises C8 on the empty store with `demoItem` and the identity
digest. -/
theorem c8_idempotent_dedup_witness :
    List.lookup (generate_news_hash (fun s => s) demoItem) ([] : HashStore)
        = none ∧
    (is_duplicate (fun s => s) "1970-01-02" [] demoItem).1 = false ∧
    is_duplicate (fun s => s) "1970-01-02"
        (is_duplicate (fun s => s) "1970-01-02" [] demoItem).2 demoItem
      = (true, (is_duplicate (fun s => s) "1970-01-02" [] demoItem).2) :=
  ⟨rfl,
    (c8_idempotent_dedup (fun s => s) "1970-01-02" [] demoItem rfl).1,
    (c8_idempotent_dedup (fun s => s) "1970-01-02" [] demoItem rfl).2.2.2.1⟩

/-! ## `remove_feed` -/

/-- C4 fails on the code: with `category = "a"` given and `"feed"` not in
bucket `"a"`, the guard `category and category in self.rss_feeds and name
in self.rss_feeds[category]` is false, so control falls into the
search-all-categories loop and deletes `"feed"` from bucket `"b"` — the
claim required the registry to be left unchanged. -/
theorem c4_remove_feed_counterexample :
    remove_feed regTwoCats "feed" (some "a") = [("a", []), ("b", [])] ∧
    remove_feed regTwoCats "feed" (some "a") ≠ regTwoCats := by
  constructor
  · decide
  · decide

theorem lookup_setBucketErase_ne (reg : Registry) (name c c' : String)
    (h : c' ≠ c) :
    List.lookup c' (setBucketErase reg c name) = List.lookup c' reg := by
  induction reg with
  | nil => rfl
  | cons p t ih =>
    obtain ⟨k, b⟩ := p
    by_cases hk : k = c
    · have hb : (c' == k) = false := by simp [hk, h]
      simp only [setBucketErase, if_pos hk, List.lookup, hb]
    · simp only [setBucketErase, if_neg hk, List.lookup]
      by_cases hk' : c' = k
      · have hb : (c' == k) = true := by simp [hk']
        simp only [hb]
      · have hb : (c' == k) = false := by simpa using hk'
        simp only [hb]
        exact ih

theorem lookup_setBucketErase_self (reg : Registry) (name c : String)
    (b : Bucket) (h : List.lookup c reg = some b) :
    List.lookup c (setBucketErase reg c name) = some (eraseKey b name) := by
  induction reg with
  | nil => simp [List.lookup] at h
  | cons p t ih =>
    obtain ⟨k, bb⟩ := p
    by_cases hk : k = c
    · have hb : (c == k) = true := by simp [hk]
      simp only [List.lookup, hb] at h
      injection h with h
      subst h
      simp only [setBucketErase, if_pos hk, List.lookup, hb]
    · have hb : (c == k) = false := by
        simpa using fun e => hk e.symm
      simp only [List.lookup, hb] at h
      simp only [setBucketErase, if_neg hk, List.lookup, hb]
      exact ih h

theorem mem_of_lookup_eq_some {β : Type} {l : List (String × β)} {k : String}
    {v : β} (h : List.lookup k l = some v) : (k, v) ∈ l := by
  induction l with
  | nil => simp [List.lookup] at h
  | cons p t ih =>
    obtain ⟨k', v'⟩ := p
    by_cases hk : k = k'
    · subst hk
      have hb : (k == k) = true := by simp
      simp only [List.lookup, hb] at h
      injection h with h
      subst h
      exact List.mem_cons_self _ _
    · have hb : (k == k') = false := by simpa using hk
      simp only [List.lookup, hb] at h
      exact List.mem_cons_of_mem _ (ih h)

theorem removeFromAll_not_found (reg : Registry) (name : String)
    (h : ∀ p ∈ reg, List.lookup name p.2 = none) :
    removeFromAll reg name = (reg, false) := by
  induction reg with
  | nil => rfl
  | cons p t ih =>
    obtain ⟨c, b⟩ := p
    have hb : List.lookup name b = none := h (c, b) (List.mem_cons_self _ _)
    simp only [removeFromAll, hb, Option.isSome_none, Bool.false_eq_true,
      if_false]
    rw [ih fun q hq => h q (List.mem_cons_of_mem _ hq)]

/-- C4 amended: with a category given, `remove_feed` deletes from that
bucket only when the name is present there (all other buckets unchanged);
otherwise — name absent from that bucket, unknown category, or the empty
string — it falls back to the search-all-categories loop, which deletes the
first match anywhere; only when the name is in no bucket is the registry
returned unchanged (a logged no-op). -/
theorem c4_remove_feed_amended :
    (∀ (reg : Registry) (name c : String), c ≠ "" → nameInCat reg c name = true →
        remove_feed reg name (some c) = setBucketErase reg c name) ∧
    (∀ (reg : Registry) (name c : String) (b : Bucket),
        List.lookup c reg = some b →
        List.lookup c (setBucketErase reg c name) = some (eraseKey b name)) ∧
    (∀ (reg : Registry) (name c c' : String), c' ≠ c →
        List.lookup c' (setBucketErase reg c name) = List.lookup c' reg) ∧
    (∀ (reg : Registry) (name c : String),
        ¬(c ≠ "" ∧ nameInCat reg c name = true) →
        remove_feed reg name (some c) = (removeFromAll reg name).1) ∧
    (∀ (reg : Registry) (name : String),
        remove_feed reg name none = (removeFromAll reg name).1) ∧
    (∀ (reg : Registry) (name : String),
        (∀ p ∈ reg, List.lookup name p.2 = none) →
        remove_feed reg name none = reg ∧
        (∀ c, remove_feed reg name (some c) = reg)) := by
  refine ⟨?_, ?_, ?_, ?_, fun reg name => rfl, ?_⟩
  · intro reg name c hc hin
    simp [remove_feed, hc, hin]
  · exact fun reg name c b h => lookup_setBucketErase_self reg name c b h
  · exact fun reg name c c' h => lookup_setBucketErase_ne reg name c c' h
  · intro reg name c h
    simp only [remove_feed, if_neg h]
  · intro reg name h
    have hall : (removeFromAll reg name).1 = reg := by
      rw [removeFromAll_not_found reg name h]
    refine ⟨hall, fun c => ?_⟩
    by_cases hcond : c ≠ "" ∧ nameInCat reg c name = true
    · exfalso
      obtain ⟨-, hin⟩ := hcond
      unfold nameInCat at hin
      cases hl : List.lookup c reg with
      | none => rw [hl] at hin; simp at hin
      | some b =>
        rw [hl] at hin
        have hb : List.lookup name b = none :=
          h (c, b) (mem_of_lookup_eq_some hl)
        simp [hb] at hin
    · simp only [remove_feed, if_neg hcond, hall]

/-- Exercises the amended C4 on `regTwoCats`. -/
theorem c4_remove_feed_amended_witness :
    remove_feed regTwoCats "feed" (some "b") = setBucketErase regTwoCats "b" "feed" :=
  c4_remove_feed_amended.1 regTwoCats "feed" "b" (by decide) (by decide)

/-! ## The validator -/

theorem validateBucket_spec (probe : String → ProbeResult) (b : Bucket) :
    (validateBucket probe b).1
        = (b.filter fun p => (validate_and_update_feed probe p.2).1).map Prod.fst ∧
    (validateBucket probe b).2.1
        = (b.filter fun p => !(validate_and_update_feed probe p.2).1).map Prod.fst ∧
    (validateBucket probe b).2.2.1
        = (b.filter fun p => (validate_and_update_feed probe p.2).1
            && (validate_and_update_feed probe p.2).2.isSome).map Prod.fst ∧
    (validateBucket probe b).2.2.2 = b.map fun p => (p.1, applyFix probe p.2) := by
  induction b with
  | nil => exact ⟨rfl, rfl, rfl, rfl⟩
  | cons p rest ih =>
    obtain ⟨name, info⟩ := p
    obtain ⟨h1, h2, h3, h4⟩ := ih
    match hv : validate_and_update_feed probe info with
    | (true, some u) =>
      refine ⟨?_, ?_, ?_, ?_⟩ <;>
        simp [validateBucket, hv, applyFix, h1, h2, h3, h4]
    | (true, none) =>
      refine ⟨?_, ?_, ?_, ?_⟩ <;>
        simp [validateBucket, hv, applyFix, h1, h2, h3, h4]
    | (false, u) =>
      refine ⟨?_, ?_, ?_, ?_⟩ <;>
        simp [validateBucket, hv, applyFix, h1, h2, h3, h4]

theorem validate_feeds_registry (probe : String → ProbeResult) (reg : Registry) :
    (validate_feeds probe reg).2
      = reg.map fun cb => (cb.1, cb.2.map fun p => (p.1, applyFix probe p.2)) := by
  induction reg with
  | nil => rfl
  | cons cb rest ih =>
    obtain ⟨c, b⟩ := cb
    simp only [validate_feeds, List.map_cons]
    exact congrArg₂ List.cons
      (congrArg _ (validateBucket_spec probe b).2.2.2) ih

theorem validate_feeds_updated (probe : String → ProbeResult) (reg : Registry) :
    (validate_feeds probe reg).1.updated
      = reg.map fun cb => (cb.1,
          (cb.2.filter fun p => (validate_and_update_feed probe p.2).1
            && (validate_and_update_feed probe p.2).2.isSome).map Prod.fst) := by
  induction reg with
  | nil => rfl
  | cons cb rest ih =>
    obtain ⟨c, b⟩ := cb
    simp only [validate_feeds, List.map_cons]
    exact congrArg₂ List.cons
      (congrArg _ (validateBucket_spec probe b).2.2.1) ih

theorem anyUpdated_iff (rep : ValidationReport) :
    anyUpdated rep = true ↔ ∃ p ∈ rep.updated, p.2 ≠ [] := by
  simp [anyUpdated, List.any_eq_true, List.isEmpty_iff]

theorem validateBucket_all_clean (probe : String → ProbeResult) (b : Bucket)
    (h : ∀ q ∈ b, (pyStartsWith q.2.url "http://"
        || pyStartsWith q.2.url "https://") = true ∧
      probe q.2.url = ProbeResult.response 200 q.2.url) :
    validateBucket probe b = (b.map Prod.fst, [], [], b) := by
  induction b with
  | nil => rfl
  | cons p rest ih =>
    obtain ⟨name, info⟩ := p
    obtain ⟨hs, hp⟩ := h (name, info) (List.mem_cons_self _ _)
    have hv : validate_and_update_feed probe info = (true, none) := by
      simp [validate_and_update_feed, hs, hp]
    simp [validateBucket, hv, ih fun q hq => h q (List.mem_cons_of_mem _ hq)]

theorem validate_feeds_all_clean (probe : String → ProbeResult) (reg : Registry)
    (h : ∀ p ∈ reg, ∀ q ∈ p.2, (pyStartsWith q.2.url "http://"
        || pyStartsWith q.2.url "https://") = true ∧
      probe q.2.url = ProbeResult.response 200 q.2.url) :
    validate_feeds probe reg
      = (⟨reg.map fun cb => (cb.1, cb.2.map Prod.fst),
          reg.map fun cb => (cb.1, []),
          reg.map fun cb => (cb.1, [])⟩, reg) := by
  induction reg with
  | nil => rfl
  | cons cb rest ih =>
    obtain ⟨c, b⟩ := cb
    have hb := validateBucket_all_clean probe b
      (h (c, b) (List.mem_cons_self _ _))
    simp [validate_feeds, hb, ih fun p hp => h p (List.mem_cons_of_mem _ hp)]

/-- C6: the five-way classification of `_validate_and_update_feed` (bad
scheme means invalid with no probe consulted; 200 at the stored URL means
valid with no update; 200 at a different final URL means valid and updated;
non-200, timeout and network errors mean invalid); the registry output of
`validate_and_update_feeds` is the input with exactly the redirected URLs
rewritten; the registry is saved exactly once iff some category reported an
updated feed; and a second validation run in which every stored URL answers
200 at itself reports every feed valid, nothing updated, leaves the
registry unchanged and saves nothing. -/
theorem c6_validate_and_update_feeds :
    (∀ (probe : String → ProbeResult) (info : FeedInfo),
      (pyStartsWith info.url "http://" || pyStartsWith info.url "https://") = false →
        validate_and_update_feed probe info = (false, none)) ∧
    (∀ (probe : String → ProbeResult) (info : FeedInfo),
      (pyStartsWith info.url "http://" || pyStartsWith info.url "https://") = true →
      probe info.url = ProbeResult.response 200 info.url →
        validate_and_update_feed probe info = (true, none)) ∧
    (∀ (probe : String → ProbeResult) (info : FeedInfo) (u : String),
      (pyStartsWith info.url "http://" || pyStartsWith info.url "https://") = true →
      probe info.url = ProbeResult.response 200 u → u ≠ info.url →
        validate_and_update_feed probe info = (true, some u)) ∧
    (∀ (probe : String → ProbeResult) (info : FeedInfo) (st : Nat) (u : String),
      (pyStartsWith info.url "http://" || pyStartsWith info.url "https://") = true →
      probe info.url = ProbeResult.response st u → st ≠ 200 →
        validate_and_update_feed probe info = (false, none)) ∧
    (∀ (probe : String → ProbeResult) (info : FeedInfo),
      probe info.url = ProbeResult.timeout ∨
      probe info.url = ProbeResult.netError ∨
      probe info.url = ProbeResult.otherError →
        validate_and_update_feed probe info = (false, none)) ∧
    (∀ (probe : String → ProbeResult) (reg : Registry),
      (validate_feeds probe reg).2
        = reg.map fun cb => (cb.1, cb.2.map fun p => (p.1, applyFix probe p.2))) ∧
    (∀ (probe : String → ProbeResult) (reg : Registry),
      (validate_and_update_feeds probe reg).2.2
        = if ∃ p ∈ (validate_feeds probe reg).1.updated, p.2 ≠ [] then 1 else 0) ∧
    (∀ (probe : String → ProbeResult) (reg : Registry),
      (∀ p ∈ reg, ∀ q ∈ p.2, (pyStartsWith q.2.url "http://"
          || pyStartsWith q.2.url "https://") = true ∧
        probe q.2.url = ProbeResult.response 200 q.2.url) →
      validate_feeds probe reg
        = (⟨reg.map fun cb => (cb.1, cb.2.map Prod.fst),
            reg.map fun cb => (cb.1, []),
            reg.map fun cb => (cb.1, [])⟩, reg) ∧
      (validate_and_update_feeds probe reg).2.2 = 0) := by
  refine ⟨?_, ?_, ?_, ?_, ?_, validate_feeds_registry, ?_, ?_⟩
  · intro probe info h
    simp [validate_and_update_feed, h]
  · intro probe info h hp
    simp [validate_and_update_feed, h, hp]
  · intro probe info u h hp hu
    simp [validate_and_update_feed, h, hp, hu]
  · intro probe info st u h hp hst
    simp [validate_and_update_feed, h, hp, hst]
  · intro probe info h
    rcases h with h | h | h <;>
      by_cases hs : (pyStartsWith info.url "http://"
          || pyStartsWith info.url "https://") = true <;>
        simp_all [validate_and_update_feed]
  · intro probe reg
    rw [show (validate_and_update_feeds probe reg).2.2
        = if anyUpdated (validate_feeds probe reg).1 then 1 else 0 from rfl]
    by_cases h : anyUpdated (validate_feeds probe reg).1 = true
    · rw [if_pos h, if_pos ((anyUpdated_iff _).1 h)]
    · rw [if_neg (by simpa using h),
        if_neg (fun hc => h ((anyUpdated_iff _).2 hc))]
  · intro probe reg h
    have hv := validate_feeds_all_clean probe reg h
    refine ⟨hv, ?_⟩
    show (if anyUpdated (validate_feeds probe reg).1 then 1 else 0) = 0
    rw [hv]
    have : anyUpdated ⟨reg.map fun cb => (cb.1, cb.2.map Prod.fst),
        reg.map fun cb => (cb.1, []), reg.map fun cb => (cb.1, [])⟩ = false := by
      simp [anyUpdated, List.any_eq_true]
    rw [this]
    rfl

/-- Exercises C6: a 301-style redirect at `demoInfo` is reported valid and
updated with the final URL, and the second run over `demoReg` (every URL
answering 200 at itself) is clean. -/
theorem c6_validate_and_update_feeds_witness :
    validate_and_update_feed (fun _ => ProbeResult.response 200 "http://new.example.com/f")
        demoInfo
      = (true, some "http://new.example.com/f") ∧
    validate_feeds (fun u => ProbeResult.response 200 u) demoReg
      = (⟨demoReg.map fun cb => (cb.1, cb.2.map Prod.fst),
          demoReg.map fun cb => (cb.1, []),
          demoReg.map fun cb => (cb.1, [])⟩, demoReg) ∧
    (validate_and_update_feeds (fun u => ProbeResult.response 200 u) demoReg).2.2 = 0 :=
  ⟨c6_validate_and_update_feeds.2.2.1 (fun _ => ProbeResult.response 200 "http://new.example.com/f")
      demoInfo "http://new.example.com/f" (by decide) rfl (by decide),
    (c6_validate_and_update_feeds.2.2.2.2.2.2.2 (fun u => ProbeResult.response 200 u)
      demoReg (by decide)).1,
    (c6_validate_and_update_feeds.2.2.2.2.2.2.2 (fun u => ProbeResult.response 200 u)
      demoReg (by decide)).2⟩

/-! ## C2: an entry with missing fields aborts its whole feed -/

/-- C2 fails on the code: `self.logger` is not an attribute of
`RSSNewsCrawler` (only a module-level `logger` exists), so the
`self.logger.warning` call on the missing-date path raises
`AttributeError`; the `except` handler's own `self.logger.error` raises
again, the exception escapes `_process_entry`, is caught by the
`except Exception` of `_crawl_single_feed`, and breaks the retry loop.
Concretely: with a feed answering `[entryNoDate, entryGood]`, the
missing-date entry makes `_process_entry` raise instead of returning
`None`, the perfectly valid second entry is never processed (result `[]`),
and the feed is recorded as FAILED in the metrics
(`failed_requests = 1`, `successful_requests = 0`) — the claim wanted a
silent per-entry skip with no feed failure. -/
theorem c2_missing_date_aborts_feed :
    process_entry demoEnv entryNoDate "feed" = Except.error () ∧
    process_entry demoEnv entryGood "feed"
      = Except.ok (some ⟨"AI breakthrough", "New AI model shipped",
          "http://example.com/a", "1970-01-01T00:00:00+00:00", "feed"⟩) ∧
    process_entries demoEnv "feed" "en" "tech" [entryNoDate, entryGood]
      = ([], true) ∧
    crawl_loop demoEnv (fun _ => FetchOutcome.success [entryNoDate, entryGood])
        "feed" "en" "tech" 0 max_retries
      = ⟨[], false, 1, 0⟩ ∧
    ((crawl_single_feed demoEnv
        (fun _ _ => FetchOutcome.success [entryNoDate, entryGood]) 1 "feed"
        demoInfo (fun _ => none)).2 "feed").map Metrics.failed_requests
      = some 1 ∧
    ((crawl_single_feed demoEnv
        (fun _ _ => FetchOutcome.success [entryNoDate, entryGood]) 1 "feed"
        demoInfo (fun _ => none)).2 "feed").map Metrics.successful_requests
      = some 0 := by
  refine ⟨by rfl, by rfl, by decide, by decide, by decide, by decide⟩

/-! ## C1: the dedup store is never consulted by the crawl -/

/-- C1 fails on the code: `_is_duplicate` (and `_generate_news_hash`) is
never called anywhere — `crawl_rss_feeds` loads and re-saves the hash store
but never consults it — so nothing suppresses entries with equal
fingerprints.  Concretely: a single valid feed whose parse yields the same
acceptable entry twice produces a returned collection holding that entry at
two distinct positions; the two occupants are identical records, so every
deterministic digest gives them equal fingerprints, and the in-memory dedup
store comes back unchanged (still empty). -/
theorem c1_dedup_never_applied :
    (crawl_rss_feeds demoEnv (fun u => ProbeResult.response 200 u)
        (fun _ _ => FetchOutcome.success [entryGood, entryGood]) (fun _ => 1)
        demoReg "general" none (fun _ => none) []).1
      = [demoItem, demoItem] ∧
    ((crawl_rss_feeds demoEnv (fun u => ProbeResult.response 200 u)
        (fun _ _ => FetchOutcome.success [entryGood, entryGood]) (fun _ => 1)
        demoReg "general" none (fun _ => none) []).1)[0]?
      = ((crawl_rss_feeds demoEnv (fun u => ProbeResult.response 200 u)
        (fun _ _ => FetchOutcome.success [entryGood, entryGood]) (fun _ => 1)
        demoReg "general" none (fun _ => none) []).1)[1]? ∧
    ((crawl_rss_feeds demoEnv (fun u => ProbeResult.response 200 u)
        (fun _ _ => FetchOutcome.success [entryGood, entryGood]) (fun _ => 1)
        demoReg "general" none (fun _ => none) []).1)[0]? = some demoItem ∧
    (∀ md5 : String → String,
      generate_news_hash md5 demoItem = generate_news_hash md5 demoItem) ∧
    (crawl_rss_feeds demoEnv (fun u => ProbeResult.response 200 u)
        (fun _ _ => FetchOutcome.success [entryGood, entryGood]) (fun _ => 1)
        demoReg "general" none (fun _ => none) []).2.2.1
      = ([] : HashStore) := by
  refine ⟨by decide, by decide, by decide, fun md5 => rfl, by decide⟩

/-! ## C5: string comparison of `isoformat` renderings -/

theorem then_eq_lt (o p : Ordering) :
    o.then p = .lt ↔ o = .lt ∨ (o = .eq ∧ p = .lt) := by
  cases o <;> simp [Ordering.then]

theorem then_eq_gt (o p : Ordering) :
    o.then p = .gt ↔ o = .gt ∨ (o = .eq ∧ p = .gt) := by
  cases o <;> simp [Ordering.then]

theorem then_eq_eq (o p : Ordering) :
    o.then p = .eq ↔ o = .eq ∧ p = .eq := by
  cases o <;> simp [Ordering.then]

theorem then_eq_right (o : Ordering) : o.then .eq = o := by
  cases o <;> rfl

theorem then_assoc (o p q : Ordering) : (o.then p).then q = o.then (p.then q) := by
  cases o <;> rfl

theorem char_eq_of_toNat_eq {a b : Char} (h : a.toNat = b.toNat) : a = b := by
  have ha := Char.ofNat_toNat a
  have hb := Char.ofNat_toNat b
  rw [← ha, ← hb, h]

theorem cmpChar_eq_iff (a b : Char) : cmpChar a b = .eq ↔ a = b := by
  unfold cmpChar
  rw [Nat.compare_eq_eq]
  exact ⟨char_eq_of_toNat_eq, fun h => by rw [h]⟩

theorem cmpChar_lt_iff (a b : Char) : cmpChar a b = .lt ↔ a.toNat < b.toNat :=
  Nat.compare_eq_lt

theorem cmpChar_gt_iff (a b : Char) : cmpChar a b = .gt ↔ b.toNat < a.toNat :=
  Nat.compare_eq_gt

theorem cmpChar_self (a : Char) : cmpChar a a = .eq := (cmpChar_eq_iff a a).2 rfl

theorem cmpL_self (s : List Char) : cmpL s s = .eq := by
  induction s with
  | nil => rfl
  | cons a t ih => simp [cmpL, cmpChar_self, ih, Ordering.then]

theorem cmpL_eq_iff (s t : List Char) : cmpL s t = .eq ↔ s = t := by
  induction s generalizing t with
  | nil => cases t <;> simp [cmpL]
  | cons a as ih =>
    cases t with
    | nil => simp [cmpL]
    | cons b bs =>
      simp only [cmpL, then_eq_eq, cmpChar_eq_iff, ih, List.cons.injEq]

theorem cmpL_gt_iff_lt (s t : List Char) : cmpL s t = .gt ↔ cmpL t s = .lt := by
  induction s generalizing t with
  | nil => cases t <;> simp [cmpL]
  | cons a as ih =>
    cases t with
    | nil => simp [cmpL]
    | cons b bs =>
      simp only [cmpL, then_eq_gt, then_eq_lt, cmpChar_gt_iff, cmpChar_lt_iff,
        cmpChar_eq_iff, ih]
      constructor
      · rintro (h | ⟨h, h'⟩)
        · exact Or.inl h
        · exact Or.inr ⟨h.symm, h'⟩
      · rintro (h | ⟨h, h'⟩)
        · exact Or.inl h
        · exact Or.inr ⟨h.symm, h'⟩

theorem cmpL_lt_trans {s t u : List Char} (h₁ : cmpL s t = .lt)
    (h₂ : cmpL t u = .lt) : cmpL s u = .lt := by
  induction s generalizing t u with
  | nil =>
    cases t with
    | nil => simp [cmpL] at h₁
    | cons b bs =>
      cases u with
      | nil => simp [cmpL] at h₂
      | cons c cs => simp [cmpL]
  | cons a as ih =>
    cases t with
    | nil => simp [cmpL] at h₁
    | cons b bs =>
      cases u with
      | nil => simp [cmpL] at h₂
      | cons c cs =>
        simp only [cmpL, then_eq_lt, cmpChar_lt_iff, cmpChar_eq_iff] at h₁ h₂ ⊢
        rcases h₁ with h₁ | ⟨rfl, h₁⟩
        · rcases h₂ with h₂ | ⟨rfl, h₂⟩
          · exact Or.inl (h₁.trans h₂)
          · exact Or.inl h₁
        · rcases h₂ with h₂ | ⟨rfl, h₂⟩
          · exact Or.inl h₂
          · exact Or.inr ⟨rfl, ih h₁ h₂⟩

theorem pubGeB_eq_true_iff (x y : NewsItem) :
    pubGeB x y = true ↔ cmpL x.published.data y.published.data ≠ .lt := by
  unfold pubGeB
  cases cmpL x.published.data y.published.data <;> simp <;> rfl

theorem pubGeB_total {x y : NewsItem} (h : ¬ pubGeB x y = true) :
    pubGeB y x = true := by
  have hlt : cmpL x.published.data y.published.data = .lt := by
    by_contra hne
    exact h ((pubGeB_eq_true_iff x y).2 hne)
  rw [pubGeB_eq_true_iff]
  intro hc
  have := cmpL_lt_trans hlt hc
  rw [cmpL_self] at this
  exact Ordering.noConfusion this

theorem pubGeB_trans {x y z : NewsItem} (h₁ : pubGeB x y = true)
    (h₂ : pubGeB y z = true) : pubGeB x z = true := by
  rw [pubGeB_eq_true_iff] at h₁ h₂ ⊢
  intro hc
  cases hyx : cmpL x.published.data y.published.data with
  | lt => exact h₁ hyx
  | eq =>
    have he : x.published.data = y.published.data := (cmpL_eq_iff _ _).1 hyx
    exact h₂ (by rw [← he]; exact hc)
  | gt =>
    have hl : cmpL y.published.data x.published.data = .lt :=
      (cmpL_gt_iff_lt _ _).1 hyx
    exact h₂ (cmpL_lt_trans hl hc)

theorem mem_insertDesc (x a : NewsItem) (l : List NewsItem) :
    a ∈ insertDesc x l ↔ a = x ∨ a ∈ l := by
  induction l with
  | nil => simp [insertDesc]
  | cons y t ih =>
    by_cases h : pubGeB x y = true
    · simp [insertDesc, h]
    · simp only [insertDesc, if_neg h, List.mem_cons, ih]
      tauto

theorem pairwise_insertDesc (x : NewsItem) (l : List NewsItem)
    (h : l.Pairwise fun a b => pubGeB a b = true) :
    (insertDesc x l).Pairwise fun a b => pubGeB a b = true := by
  induction l with
  | nil => simp [insertDesc]
  | cons y t ih =>
    rw [List.pairwise_cons] at h
    obtain ⟨hy, ht⟩ := h
    by_cases hxy : pubGeB x y = true
    · rw [insertDesc, if_pos hxy, List.pairwise_cons]
      refine ⟨?_, List.pairwise_cons.2 ⟨hy, ht⟩⟩
      intro b hb
      rcases List.mem_cons.1 hb with rfl | hb
      · exact hxy
      · exact pubGeB_trans hxy (hy b hb)
    · rw [insertDesc, if_neg hxy, List.pairwise_cons]
      refine ⟨?_, ih ht⟩
      intro b hb
      rcases (mem_insertDesc x b t).1 hb with rfl | hb
      · exact pubGeB_total hxy
      · exact hy b hb

theorem sortByPublishedDesc_pairwise (l : List NewsItem) :
    (sortByPublishedDesc l).Pairwise fun a b => pubGeB a b = true := by
  induction l with
  | nil => simp [sortByPublishedDesc]
  | cons x t ih => exact pairwise_insertDesc x _ ih

theorem insertDesc_perm (x : NewsItem) (l : List NewsItem) :
    (insertDesc x l).Perm (x :: l) := by
  induction l with
  | nil => exact List.Perm.refl _
  | cons y t ih =>
    by_cases h : pubGeB x y = true
    · rw [insertDesc, if_pos h]
    · rw [insertDesc, if_neg h]
      exact (ih.cons y).trans (List.Perm.swap x y t)

theorem sortByPublishedDesc_perm (l : List NewsItem) :
    (sortByPublishedDesc l).Perm l := by
  induction l with
  | nil => exact List.Perm.refl _
  | cons x t ih =>
    exact (insertDesc_perm x (sortByPublishedDesc t)).trans (ih.cons x)

theorem padNum_length (w n : Nat) : (padNum w n).length = w := by
  induction w generalizing n with
  | zero => rfl
  | succ w ih => simp [padNum, ih]

theorem cmpL_append {x y : List Char} (u v : List Char)
    (hlen : x.length = y.length) :
    cmpL (x ++ u) (y ++ v) = (cmpL x y).then (cmpL u v) := by
  induction x generalizing y with
  | nil =>
    cases y with
    | nil => rfl
    | cons b bs => simp at hlen
  | cons a as ih =>
    cases y with
    | nil => simp at hlen
    | cons b bs =>
      simp only [List.cons_append, cmpL, List.append_eq]
      rw [ih (by simpa using hlen), then_assoc]

theorem cmpL_cons_same (c : Char) (s t : List Char) :
    cmpL (c :: s) (c :: t) = cmpL s t := by
  show (cmpChar c c).then (cmpL s t) = cmpL s t
  rw [cmpChar_self]
  rfl

theorem cmpL_single (a b : Char) : cmpL [a] [b] = cmpChar a b := by
  show (cmpChar a b).then (cmpL [] []) = cmpChar a b
  exact then_eq_right _

theorem digitChar_cmp : ∀ a < 10, ∀ b < 10,
    cmpChar (digitChar a) (digitChar b) = compare a b := by decide

theorem compare_digits (a b : Nat) :
    (compare (a / 10) (b / 10)).then (compare (a % 10) (b % 10)) = compare a b := by
  rcases Nat.lt_trichotomy a b with hab | hab | hab
  · rw [Nat.compare_eq_lt.2 hab]
    rcases Nat.lt_trichotomy (a / 10) (b / 10) with h | h | h
    · rw [Nat.compare_eq_lt.2 h]; rfl
    · rw [Nat.compare_eq_eq.2 h,
        Nat.compare_eq_lt.2 (show a % 10 < b % 10 by omega)]
      rfl
    · exact absurd hab (by omega)
  · subst hab
    rw [Nat.compare_eq_eq.2 rfl, Nat.compare_eq_eq.2 rfl, Nat.compare_eq_eq.2 rfl]
    rfl
  · rw [Nat.compare_eq_gt.2 hab]
    rcases Nat.lt_trichotomy (a / 10) (b / 10) with h | h | h
    · exact absurd hab (by omega)
    · rw [Nat.compare_eq_eq.2 h,
        Nat.compare_eq_gt.2 (show b % 10 < a % 10 by omega)]
      rfl
    · rw [Nat.compare_eq_gt.2 h]; rfl

theorem padNum_cmp : ∀ (w a b : Nat), a < 10 ^ w → b < 10 ^ w →
    cmpL (padNum w a) (padNum w b) = compare a b := by
  intro w
  induction w with
  | zero =>
    intro a b ha hb
    have ha0 : a = 0 := by omega
    have hb0 : b = 0 := by omega
    subst ha0; subst hb0
    rfl
  | succ w ih =>
    intro a b ha hb
    show cmpL (padNum w (a / 10) ++ [digitChar (a % 10)])
        (padNum w (b / 10) ++ [digitChar (b % 10)]) = compare a b
    rw [cmpL_append _ _ (by rw [padNum_length, padNum_length])]
    rw [ih (a / 10) (b / 10)
      (Nat.div_lt_of_lt_mul (by rw [mul_comm, ← pow_succ]; exact ha))
      (Nat.div_lt_of_lt_mul (by rw [mul_comm, ← pow_succ]; exact hb))]
    rw [cmpL_single,
      digitChar_cmp _ (Nat.mod_lt _ (by norm_num)) _ (Nat.mod_lt _ (by norm_num))]
    exact compare_digits a b

theorem cmpL_pad (w a b : Nat) (u v : List Char) (ha : a < 10 ^ w)
    (hb : b < 10 ^ w) :
    cmpL (padNum w a ++ u) (padNum w b ++ v) = (compare a b).then (cmpL u v) := by
  rw [cmpL_append _ _ (by rw [padNum_length, padNum_length]), padNum_cmp w a b ha hb]

theorem cmpL_sep_pad (c : Char) (w a b : Nat) (u v : List Char)
    (ha : a < 10 ^ w) (hb : b < 10 ^ w) :
    cmpL ((c :: padNum w a) ++ u) ((c :: padNum w b) ++ v)
      = (compare a b).then (cmpL u v) := by
  rw [List.cons_append, List.cons_append, cmpL_cons_same, cmpL_pad w a b u v ha hb]

theorem usec_tail_cmp (u₁ u₂ : Nat) (h₁ : u₁ ≤ 999999) (h₂ : u₂ ≤ 999999) :
    cmpL ((if u₁ = 0 then [] else '.' :: padNum 6 u₁) ++ offsetChars)
         ((if u₂ = 0 then [] else '.' :: padNum 6 u₂) ++ offsetChars)
      = compare u₁ u₂ := by
  by_cases hz₁ : u₁ = 0 <;> by_cases hz₂ : u₂ = 0
  · rw [if_pos hz₁, if_pos hz₂, List.nil_append, cmpL_self, hz₁, hz₂]
    rfl
  · rw [if_pos hz₁, if_neg hz₂, List.nil_append, List.cons_append]
    rw [show cmpL offsetChars ('.' :: (padNum 6 u₂ ++ offsetChars))
        = (cmpChar '+' '.').then
            (cmpL ['0', '0', ':', '0', '0'] (padNum 6 u₂ ++ offsetChars)) from rfl]
    rw [show cmpChar '+' '.' = Ordering.lt from by decide, hz₁]
    exact (Nat.compare_eq_lt.2 (Nat.pos_of_ne_zero hz₂)).symm
  · rw [if_neg hz₁, if_pos hz₂, List.nil_append, List.cons_append]
    rw [show cmpL ('.' :: (padNum 6 u₁ ++ offsetChars)) offsetChars
        = (cmpChar '.' '+').then
            (cmpL (padNum 6 u₁ ++ offsetChars) ['0', '0', ':', '0', '0']) from rfl]
    rw [show cmpChar '.' '+' = Ordering.gt from by decide, hz₂]
    exact (Nat.compare_eq_gt.2 (Nat.pos_of_ne_zero hz₁)).symm
  · rw [if_neg hz₁, if_neg hz₂, List.cons_append, List.cons_append, cmpL_cons_same]
    rw [cmpL_append _ _ (by rw [padNum_length, padNum_length]), cmpL_self,
      then_eq_right]
    exact padNum_cmp 6 u₁ u₂ (lt_of_le_of_lt h₁ (by norm_num))
      (lt_of_le_of_lt h₂ (by norm_num))

theorem daysInMonth_le31 : ∀ (leap : Bool), ∀ m < 13, daysInMonth leap m ≤ 31 := by
  decide

theorem iso_cmp (t₁ t₂ : UTCTime) (h₁ : ValidTime t₁) (h₂ : ValidTime t₂) :
    cmpL (isoformat t₁).data (isoformat t₂).data
      = (compare t₁.year t₂.year).then ((compare t₁.month t₂.month).then
        ((compare t₁.day t₂.day).then ((compare t₁.hour t₂.hour).then
        ((compare t₁.minute t₂.minute).then ((compare t₁.second t₂.second).then
        (compare t₁.usec t₂.usec)))))) := by
  obtain ⟨-, hy₁, hm₁a, hm₁b, -, hd₁, hh₁, hmi₁, hs₁, hu₁⟩ := h₁
  obtain ⟨-, hy₂, hm₂a, hm₂b, -, hd₂, hh₂, hmi₂, hs₂, hu₂⟩ := h₂
  have hd₁' : t₁.day ≤ 31 :=
    hd₁.trans (daysInMonth_le31 _ _ (by omega))
  have hd₂' : t₂.day ≤ 31 :=
    hd₂.trans (daysInMonth_le31 _ _ (by omega))
  show cmpL
      (padNum 4 t₁.year ++ (('-' :: padNum 2 t₁.month) ++ (('-' :: padNum 2 t₁.day)
        ++ (('T' :: padNum 2 t₁.hour) ++ ((':' :: padNum 2 t₁.minute)
        ++ ((':' :: padNum 2 t₁.second)
        ++ ((if t₁.usec = 0 then [] else '.' :: padNum 6 t₁.usec) ++ offsetChars)))))))
      (padNum 4 t₂.year ++ (('-' :: padNum 2 t₂.month) ++ (('-' :: padNum 2 t₂.day)
        ++ (('T' :: padNum 2 t₂.hour) ++ ((':' :: padNum 2 t₂.minute)
        ++ ((':' :: padNum 2 t₂.second)
        ++ ((if t₂.usec = 0 then [] else '.' :: padNum 6 t₂.usec) ++ offsetChars)))))))
      = _
  rw [cmpL_pad 4 _ _ _ _ (by omega) (by omega),
    cmpL_sep_pad '-' 2 _ _ _ _ (by omega) (by omega),
    cmpL_sep_pad '-' 2 _ _ _ _ (by omega) (by omega),
    cmpL_sep_pad 'T' 2 _ _ _ _ (by omega) (by omega),
    cmpL_sep_pad ':' 2 _ _ _ _ (by omega) (by omega),
    cmpL_sep_pad ':' 2 _ _ _ _ (by omega) (by omega),
    usec_tail_cmp _ _ hu₁ hu₂]

theorem dayOffset_lt : ∀ (leap : Bool), ∀ mo < 13, ∀ d < 32,
    1 ≤ mo → 1 ≤ d → d ≤ daysInMonth leap mo →
    daysBeforeMonth leap mo + (d - 1) < (if leap then 366 else 365) := by
  decide

theorem month_mono : ∀ (leap : Bool), ∀ mo₁ < 13, ∀ mo₂ < 13, mo₁ < mo₂ →
    daysBeforeMonth leap mo₁ + daysInMonth leap mo₁
      ≤ daysBeforeMonth leap mo₂ := by
  decide

theorem daysBeforeYear_mono {a b : Nat} (h : a ≤ b) :
    daysBeforeYear a ≤ daysBeforeYear b := by
  induction b with
  | zero =>
    have ha : a = 0 := by omega
    subst ha
    exact le_rfl
  | succ n ih =>
    rcases Nat.lt_succ_iff_lt_or_eq.1 (Nat.lt_succ_of_le h) with hlt | heq
    · exact (ih (by omega)).trans
        (show daysBeforeYear n ≤ daysBeforeYear n + daysInYear n from
          Nat.le_add_right _ _)
    · subst heq
      exact le_rfl

theorem daysBeforeYear_step {y₁ y₂ : Nat} (h : y₁ < y₂) :
    daysBeforeYear y₁ + daysInYear y₁ ≤ daysBeforeYear y₂ :=
  show daysBeforeYear (y₁ + 1) ≤ daysBeforeYear y₂ from daysBeforeYear_mono h

theorem toMicros_strict (t₁ t₂ : UTCTime) (h₁ : ValidTime t₁) (h₂ : ValidTime t₂)
    (hlt : TupleLt t₁ t₂) : toMicros t₁ < toMicros t₂ := by
  obtain ⟨hy₁a, hy₁b, hm₁a, hm₁b, hd₁a, hd₁b, hh₁, hmi₁, hs₁, hu₁⟩ := h₁
  obtain ⟨hy₂a, hy₂b, hm₂a, hm₂b, hd₂a, hd₂b, hh₂, hmi₂, hs₂, hu₂⟩ := h₂
  unfold toMicros
  rcases hlt with hy | ⟨hyeq, hrest⟩
  · have hoff₁ : daysBeforeMonth (isLeap t₁.year) t₁.month + (t₁.day - 1)
        < daysInYear t₁.year := by
      have hlim := daysInMonth_le31 (isLeap t₁.year) t₁.month (by omega)
      have := dayOffset_lt (isLeap t₁.year) t₁.month (by omega) t₁.day (by omega)
        hm₁a hd₁a hd₁b
      unfold daysInYear
      exact this
    have hstep := daysBeforeYear_step hy
    omega
  · rw [← hyeq]
    rcases hrest with hm | ⟨hmeq, hrest⟩
    · have hmono := month_mono (isLeap t₁.year) t₁.month (by omega) t₂.month
        (by omega) hm
      have hdim : t₁.day ≤ daysInMonth (isLeap t₁.year) t₁.month := hd₁b
      omega
    · rw [← hmeq]
      rcases hrest with hd | ⟨hdeq, hrest⟩
      · omega
      · rw [← hdeq]
        omega

theorem toMicros_congr {t₁ t₂ : UTCTime} (hy : t₁.year = t₂.year)
    (hm : t₁.month = t₂.month) (hd : t₁.day = t₂.day) (hh : t₁.hour = t₂.hour)
    (hmi : t₁.minute = t₂.minute) (hs : t₁.second = t₂.second)
    (hu : t₁.usec = t₂.usec) : toMicros t₁ = toMicros t₂ := by
  unfold toMicros
  rw [hy, hm, hd, hh, hmi, hs, hu]

theorem iso_lt_iff (t₁ t₂ : UTCTime) (h₁ : ValidTime t₁) (h₂ : ValidTime t₂) :
    cmpL (isoformat t₁).data (isoformat t₂).data = Ordering.lt
      ↔ toMicros t₁ < toMicros t₂ := by
  rw [iso_cmp t₁ t₂ h₁ h₂]
  have hchain : ((compare t₁.year t₂.year).then ((compare t₁.month t₂.month).then
      ((compare t₁.day t₂.day).then ((compare t₁.hour t₂.hour).then
      ((compare t₁.minute t₂.minute).then ((compare t₁.second t₂.second).then
      (compare t₁.usec t₂.usec))))))) = Ordering.lt ↔ TupleLt t₁ t₂ := by
    simp only [then_eq_lt, Nat.compare_eq_lt, Nat.compare_eq_eq]
    unfold TupleLt
    tauto
  rw [hchain]
  constructor
  · exact toMicros_strict t₁ t₂ h₁ h₂
  · intro hm
    by_contra hnot
    have htot : TupleLt t₂ t₁ ∨ (t₁.year = t₂.year ∧ t₁.month = t₂.month ∧
        t₁.day = t₂.day ∧ t₁.hour = t₂.hour ∧ t₁.minute = t₂.minute ∧
        t₁.second = t₂.second ∧ t₁.usec = t₂.usec) := by
      unfold TupleLt at hnot ⊢
      omega
    rcases htot with hgt | ⟨e₁, e₂, e₃, e₄, e₅, e₆, e₇⟩
    · have := toMicros_strict t₂ t₁ h₂ h₁ hgt
      omega
    · have := toMicros_congr e₁ e₂ e₃ e₄ e₅ e₆ e₇
      omega

theorem pubGeB_chrono {a b : NewsItem} (h : pubGeB a b = true) :
    PublishedChronoGe a b := by
  intro ta tb hva hvb ha hb
  rw [pubGeB_eq_true_iff, ha, hb] at h
  by_contra hlt
  exact h ((iso_lt_iff ta tb hva hvb).2 (by omega))

/-- C5: the list `crawl_rss_feeds` returns is its merged input reordered
(`Perm`) so that adjacent entries are non-increasing chronologically:
lexicographic comparison of the `isoformat` strings of UTC-aware datetimes
agrees exactly with comparison of the underlying instants — including when
one string carries microseconds and the other omits them, because `'+'`
precedes `'.'`, and digits follow both — so sorting the `published` strings
descending is sorting the published instants descending; the spec's
three-feed merge example comes out `[01-03, 01-02, 01-01]`. -/
theorem c5_merge_sorted_newest_first :
    (∀ l : List NewsItem, (sortByPublishedDesc l).Pairwise PublishedChronoGe) ∧
    (∀ l : List NewsItem, (sortByPublishedDesc l).Perm l) ∧
    (∀ t₁ t₂ : UTCTime, ValidTime t₁ → ValidTime t₂ →
      (cmpL (isoformat t₁).data (isoformat t₂).data = Ordering.lt
        ↔ toMicros t₁ < toMicros t₂)) ∧
    isoformat ⟨2024, 1, 3, 0, 0, 0, 0⟩ = "2024-01-03T00:00:00+00:00" ∧
    isoformat ⟨2024, 1, 1, 12, 0, 0, 1⟩ = "2024-01-01T12:00:00.000001+00:00" ∧
    cmpL "2024-01-01T12:00:00+00:00".data
        "2024-01-01T12:00:00.000001+00:00".data = Ordering.lt ∧
    sortByPublishedDesc
        [⟨"a", "d", "l", "2024-01-01T00:00:00+00:00", "s", "en", "g"⟩,
         ⟨"b", "d", "l", "2024-01-03T00:00:00+00:00", "s", "en", "g"⟩,
         ⟨"c", "d", "l", "2024-01-02T00:00:00+00:00", "s", "en", "g"⟩]
      = [⟨"b", "d", "l", "2024-01-03T00:00:00+00:00", "s", "en", "g"⟩,
         ⟨"c", "d", "l", "2024-01-02T00:00:00+00:00", "s", "en", "g"⟩,
         ⟨"a", "d", "l", "2024-01-01T00:00:00+00:00", "s", "en", "g"⟩] :=
  ⟨fun l => (sortByPublishedDesc_pairwise l).imp pubGeB_chrono,
    sortByPublishedDesc_perm,
    iso_lt_iff,
    by decide,
    by decide,
    by decide,
    by decide⟩

end RSS
